import Mathlib

/-!
Verification of the scheduler, scope usage tracking and atomic file writing
of the gn meta-build generator, as a shallow embedding in Lean.

The embedding follows the source files:
  tools/gn/scheduler.cc            (Scheduler)
  base/files/important_file_writer.cc (ImportantFileWriter::WriteFileAtomically)
and, where the repository slice only ships the test of a component,
definitions are modelled from the specification and say so in their
doc comments.
-/

namespace GN

/-- base::FilePath as used by the scheduler: an opaque path value. -/
abbrev FilePath := String

/-- SourceFile: a source-file reference, identity only. -/
abbrev SourceFile := String

/-- const Target*: an opaque target identity. -/
abbrev TargetId := String

/-- Err: a structured error value (tools/gn/err.h). Only identity and
has_error matter to the scheduler. -/
structure Err where
  has_error : Bool
  message : String
deriving Repr, DecidableEq

/-- A task posted to the main-thread message loop (MsgLoop). PostQuit is
modelled as posting a quit task. -/
inductive MainTask where
  | logTask (verb msg : String)
  | failWithErrorTask (err : Err)
  | onCompleteTask
  | quitTask
deriving Repr, DecidableEq

/-- The mutable state of tools/gn/scheduler.cc guarded by lock_, the two
atomic counters, and the queue of tasks posted to the main-thread loop.
The worker-pool condition variable carries no data, so signalling it is
a no-op on this state. -/
structure SchedulerState where
  is_failed : Bool
  has_been_shutdown : Bool
  gen_dependencies : List FilePath
  written_files : List SourceFile
  unknown_generated_inputs : List (SourceFile × TargetId)
  write_runtime_deps_targets : List TargetId
  work_count : Int
  pool_work_count : Int
  main_queue : List MainTask
  suppress_stdout_for_testing : Bool
deriving Repr, DecidableEq

/-- The state right after the Scheduler constructor runs. -/
def initScheduler : SchedulerState :=
  { is_failed := false
    has_been_shutdown := false
    gen_dependencies := []
    written_files := []
    unknown_generated_inputs := []
    write_runtime_deps_targets := []
    work_count := 0
    pool_work_count := 0
    main_queue := []
    suppress_stdout_for_testing := false }

/-- Scheduler::FailWithError (scheduler.cc:55): under lock_, if is_failed_
or has_been_shutdown_ is set, return with no change; otherwise set
is_failed_ and post FailWithErrorOnMainThread to the main loop. -/
def FailWithError (s : SchedulerState) (err : Err) : SchedulerState :=
  if s.is_failed || s.has_been_shutdown then s
  else { s with is_failed := true
                main_queue := s.main_queue ++ [MainTask.failWithErrorTask err] }

/-- Scheduler::Log (scheduler.cc:50): posts LogOnMainThread to the main
loop. -/
def Log (s : SchedulerState) (verb msg : String) : SchedulerState :=
  { s with main_queue := s.main_queue ++ [MainTask.logTask verb msg] }

/-- Scheduler::Run (scheduler.cc:36) after the main-thread message loop has
exited: read is_failed() under lock_, set has_been_shutdown_, wait for the
pool tasks (no state change), and return the negation of the observed
flag. -/
def Run (s : SchedulerState) : Bool × SchedulerState :=
  let local_is_failed := s.is_failed
  (!local_is_failed, { s with has_been_shutdown := true })

/-- Scheduler::AddGenDependency (scheduler.cc:84): append under lock_. -/
def AddGenDependency (s : SchedulerState) (file : FilePath) : SchedulerState :=
  { s with gen_dependencies := s.gen_dependencies ++ [file] }

/-- Scheduler::GetGenDependencies (scheduler.cc:89): returns a copy of the
list; const method, so the state component of the result is the input. -/
def GetGenDependencies (s : SchedulerState) : List FilePath × SchedulerState :=
  (s.gen_dependencies, s)

/-- Scheduler::AddWrittenFile (scheduler.cc:94). -/
def AddWrittenFile (s : SchedulerState) (file : SourceFile) : SchedulerState :=
  { s with written_files := s.written_files ++ [file] }

/-- Scheduler::AddUnknownGeneratedInput (scheduler.cc:99): multimap insert,
modelled as appending the key/value pair. -/
def AddUnknownGeneratedInput (s : SchedulerState) (target : TargetId)
    (file : SourceFile) : SchedulerState :=
  { s with unknown_generated_inputs :=
             s.unknown_generated_inputs ++ [(file, target)] }

/-- std::multimap::erase(key): removes every entry with that key. -/
def mmapErase (m : List (SourceFile × TargetId)) (file : SourceFile) :
    List (SourceFile × TargetId) :=
  m.filter (fun p => p.1 != file)

/-- Scheduler::GetUnknownGeneratedInputs (scheduler.cc:127): copies the
multimap, erases each written file from the copy, and returns it; const
method, so the state component of the result is the input. -/
def GetUnknownGeneratedInputs (s : SchedulerState) :
    List (SourceFile × TargetId) × SchedulerState :=
  (s.written_files.foldl mmapErase s.unknown_generated_inputs, s)

/-- Scheduler::IncrementWorkCount (scheduler.cc:149). -/
def IncrementWorkCount (s : SchedulerState) : SchedulerState :=
  { s with work_count := s.work_count + 1 }

/-- Scheduler::DecrementWorkCount (scheduler.cc:153): decrement the atomic
counter; when it reaches zero post OnComplete to the main loop. -/
def DecrementWorkCount (s : SchedulerState) : SchedulerState :=
  let n := s.work_count - 1
  if n = 0 then
    { s with work_count := n
             main_queue := s.main_queue ++ [MainTask.onCompleteTask] }
  else { s with work_count := n }

/-- Scheduler::OnComplete (scheduler.cc:182): posts quit to the main loop. -/
def OnComplete (s : SchedulerState) : SchedulerState :=
  { s with main_queue := s.main_queue ++ [MainTask.quitTask] }

/-- Scheduler::LogOnMainThread (scheduler.cc:165): the strings written to
standard output. Touches no scheduler state. -/
def LogOnMainThread (verb msg : String) : List String :=
  [verb, " " ++ msg ++ "\n"]

/-- Scheduler::FailWithErrorOnMainThread (scheduler.cc:171): print the error
unless suppressed, then post quit. Returns the printed output and the new
state. -/
def FailWithErrorOnMainThread (s : SchedulerState) (err : Err) :
    List String × SchedulerState :=
  let out := if s.suppress_stdout_for_testing then [] else [err.message]
  (out, { s with main_queue := s.main_queue ++ [MainTask.quitTask] })

/-- Executing one task taken from the main-thread loop: the resulting
scheduler state and the output printed. -/
def runMainTask (s : SchedulerState) : MainTask → SchedulerState × List String
  | MainTask.logTask v m => (s, LogOnMainThread v m)
  | MainTask.failWithErrorTask e =>
      ((FailWithErrorOnMainThread s e).2, (FailWithErrorOnMainThread s e).1)
  | MainTask.onCompleteTask => (OnComplete s, [])
  | MainTask.quitTask => (s, [])

/-- Scheduler::ScheduleWork (scheduler.cc:69), the posting half: increment
the work count and the pool work count. The posted worker task body is
workerTaskBody. -/
def ScheduleWork (s : SchedulerState) : SchedulerState :=
  let s1 := IncrementWorkCount s
  { s1 with pool_work_count := s1.pool_work_count + 1 }

/-- The lambda posted by ScheduleWork (scheduler.cc:73), after the wrapped
work has run: DecrementWorkCount, then decrement the pool work count and
signal the condition variable when it reaches zero (signalling carries no
state). -/
def workerTaskBody (s : SchedulerState) : SchedulerState :=
  let s1 := DecrementWorkCount s
  { s1 with pool_work_count := s1.pool_work_count - 1 }

/-- Scheduler::WaitForPoolTasks (scheduler.cc:188): the wait loop exits,
with no further worker left to signal the condition variable, exactly when
the pool work count is zero. -/
def WaitForPoolTasksReturns (s : SchedulerState) : Bool :=
  s.pool_work_count == 0

/-- A scheduling event on the worker pool: a ScheduleWork call posting a
task, or a previously posted worker task finishing its body. -/
inductive PoolEvent where
  | schedule
  | complete
deriving Repr, DecidableEq

/-- Effect of one pool event on the scheduler state. -/
def stepPool (s : SchedulerState) : PoolEvent → SchedulerState
  | PoolEvent.schedule => ScheduleWork s
  | PoolEvent.complete => workerTaskBody s

/-- Effect of a whole event trace. -/
def runPool (s : SchedulerState) (t : List PoolEvent) : SchedulerState :=
  t.foldl stepPool s

/-- balancedFrom k t: with k worker tasks outstanding, every complete event
in t matches an earlier schedule, and at the end of t no task is
outstanding — i.e. every posted task eventually ran. -/
def balancedFrom : Int → List PoolEvent → Bool
  | k, [] => k == 0
  | k, PoolEvent.schedule :: rest => balancedFrom (k + 1) rest
  | k, PoolEvent.complete :: rest => decide (0 < k) && balancedFrom (k - 1) rest

/-- The two mutexes of the scheduler: lock_ and pool_work_count_lock_. -/
inductive LockId where
  | mainLock
  | poolWorkCountLock
deriving Repr, DecidableEq

/-- Lock-relevant primitive actions, in program order. cvWait names the
mutex the condition variable was constructed with (scheduler.cc:24 passes
pool_work_count_lock_ to the cv constructor). -/
inductive LockAct where
  | acquire (l : LockId)
  | release (l : LockId)
  | cvWait (l : LockId)
  | runLoop
  | readFailFlag
  | setShutdown
deriving Repr, DecidableEq

/-- Lock/wait action trace of Scheduler::WaitForPoolTasks (scheduler.cc:188)
with k iterations of the wait loop: AutoLock on pool_work_count_lock_, k
condition-variable waits, release at scope exit. -/
def waitForPoolTasksActs (k : Nat) : List LockAct :=
  LockAct.acquire LockId.poolWorkCountLock ::
    (List.replicate k (LockAct.cvWait LockId.poolWorkCountLock) ++
      [LockAct.release LockId.poolWorkCountLock])

/-- Lock/wait action trace of Scheduler::Run (scheduler.cc:36): run the
message loop, AutoLock on lock_ around reading is_failed and setting
has_been_shutdown_, release at block exit, then WaitForPoolTasks. -/
def runActs (k : Nat) : List LockAct :=
  [LockAct.runLoop, LockAct.acquire LockId.mainLock, LockAct.readFailFlag,
   LockAct.setShutdown, LockAct.release LockId.mainLock] ++
    waitForPoolTasksActs k

/-- Lock/wait action trace of the Scheduler destructor (scheduler.cc:31):
WaitForPoolTasks with no lock held. -/
def dtorActs (k : Nat) : List LockAct := waitForPoolTasksActs k

/-- Walk a trace tracking the held locks; true when every condition-variable
wait in the trace is on the mutex g while exactly [g] is held. -/
def waitsGuardedOnlyBy (g : LockId) : List LockId → List LockAct → Bool
  | _, [] => true
  | held, LockAct.acquire l :: rest => waitsGuardedOnlyBy g (l :: held) rest
  | held, LockAct.release l :: rest => waitsGuardedOnlyBy g (held.erase l) rest
  | held, LockAct.cvWait l :: rest =>
      (l == g) && (held == [g]) && waitsGuardedOnlyBy g held rest
  | held, LockAct.runLoop :: rest => waitsGuardedOnlyBy g held rest
  | held, LockAct.readFailFlag :: rest => waitsGuardedOnlyBy g held rest
  | held, LockAct.setShutdown :: rest => waitsGuardedOnlyBy g held rest

/-! ### Lemmas about the scheduler operations -/

theorem failWithError_of_latched (s : SchedulerState) (e : Err)
    (h : s.is_failed = true ∨ s.has_been_shutdown = true) :
    FailWithError s e = s := by
  rcases h with h | h <;> simp [FailWithError, h]

theorem foldl_failWithError_latched (errs : List Err) :
    ∀ s : SchedulerState, s.is_failed = true →
      errs.foldl FailWithError s = s := by
  induction errs with
  | nil => intro s _; rfl
  | cons e rest ih =>
    intro s h
    rw [List.foldl_cons, failWithError_of_latched s e (Or.inl h)]
    exact ih s h

theorem foldl_addGenDependency (files : List FilePath) :
    ∀ s : SchedulerState,
      (files.foldl AddGenDependency s).gen_dependencies =
        s.gen_dependencies ++ files := by
  induction files with
  | nil => intro s; simp
  | cons f rest ih =>
    intro s
    rw [List.foldl_cons, ih]
    simp [AddGenDependency]

theorem foldl_addWrittenFile (files : List SourceFile) :
    ∀ s : SchedulerState,
      (files.foldl AddWrittenFile s).written_files =
        s.written_files ++ files := by
  induction files with
  | nil => intro s; simp
  | cons f rest ih =>
    intro s
    rw [List.foldl_cons, ih]
    simp [AddWrittenFile]

theorem foldl_mmapErase (ws : List SourceFile) :
    ∀ m : List (SourceFile × TargetId),
      ws.foldl mmapErase m = m.filter (fun p => !(ws.contains p.1)) := by
  induction ws with
  | nil => intro m; simp
  | cons w rest ih =>
    intro m
    rw [List.foldl_cons, ih, mmapErase, List.filter_filter]
    congr 1
    funext p
    by_cases hpw : p.1 = w <;>
      simp [List.contains_cons, Bool.not_or, bne, Bool.and_comm, hpw]

/-! ### Claim theorems about the scheduler -/

/-- C1: in any sequence of FailWithError calls with real errors, only the
first call (from a not-failed, not-shut-down state) sets the failure flag
and posts the fail-and-quit task; every later call, and any call made once
the failure or shutdown flag is set, leaves the whole scheduler state, the
posted queue included, unchanged. -/
theorem failWithError_latches_first_error_only (s : SchedulerState) (e : Err)
    (errs : List Err) (_herr : e.has_error = true)
    (hfail : s.is_failed = false) (hshut : s.has_been_shutdown = false) :
    (FailWithError s e).is_failed = true ∧
    (FailWithError s e).main_queue =
      s.main_queue ++ [MainTask.failWithErrorTask e] ∧
    errs.foldl FailWithError (FailWithError s e) = FailWithError s e ∧
    ∀ (t : SchedulerState) (e2 : Err),
      t.is_failed = true ∨ t.has_been_shutdown = true →
        FailWithError t e2 = t := by
  have hset : (FailWithError s e).is_failed = true := by
    simp [FailWithError, hfail, hshut]
  refine ⟨hset, ?_, ?_, ?_⟩
  · simp [FailWithError, hfail, hshut]
  · exact foldl_failWithError_latched errs _ hset
  · intro t e2 h
    exact failWithError_of_latched t e2 h

/-- C1 witness: at a concrete fresh scheduler and errors, the hypotheses
hold and the first-call/suppression behaviour follows. -/
theorem failWithError_latches_first_error_only_witness :
    (FailWithError initScheduler ⟨true, "boom"⟩).is_failed = true ∧
    [(⟨true, "later"⟩ : Err)].foldl FailWithError
        (FailWithError initScheduler ⟨true, "boom"⟩) =
      FailWithError initScheduler ⟨true, "boom"⟩ := by
  have h := failWithError_latches_first_error_only initScheduler
    ⟨true, "boom"⟩ [⟨true, "later"⟩] rfl rfl rfl
  exact ⟨h.1, h.2.2.1⟩

/-- C2: Run (after the message loop exits) returns true exactly when the
failure flag was never raised, returning the negation of the observed
is_failed, and marks the scheduler as shut down. -/
theorem run_returns_success_iff_not_failed (s : SchedulerState) :
    ((Run s).1 = true ↔ s.is_failed = false) ∧
    (Run s).1 = !s.is_failed ∧
    (Run s).2.has_been_shutdown = true := by
  refine ⟨?_, rfl, rfl⟩
  cases h : s.is_failed <;> simp [Run, h]

/-- C4: a decrement of the work count that reaches zero posts the
OnComplete task (which, when run, posts quit to the main loop); a
decrement that leaves the count nonzero posts nothing. -/
theorem decrementWorkCount_posts_quit_iff_zero (s : SchedulerState) :
    (s.work_count = 1 →
      (DecrementWorkCount s).main_queue =
        s.main_queue ++ [MainTask.onCompleteTask]) ∧
    (s.work_count ≠ 1 →
      (DecrementWorkCount s).main_queue = s.main_queue) ∧
    (DecrementWorkCount s).work_count = s.work_count - 1 ∧
    ∀ t : SchedulerState,
      (runMainTask t MainTask.onCompleteTask).1.main_queue =
        t.main_queue ++ [MainTask.quitTask] := by
  refine ⟨?_, ?_, ?_, ?_⟩
  · intro h
    simp [DecrementWorkCount, h]
  · intro h
    have hne : ¬(s.work_count - 1 = 0) := by omega
    simp [DecrementWorkCount, hne]
  · by_cases h : s.work_count - 1 = 0 <;> simp [DecrementWorkCount, h]
  · intro t
    simp [runMainTask, OnComplete]

/-- C4 witness: concrete decrements at counts 1 and 2. -/
theorem decrementWorkCount_posts_quit_iff_zero_witness :
    (DecrementWorkCount { initScheduler with work_count := 1 }).main_queue =
      ({ initScheduler with work_count := 1 } : SchedulerState).main_queue ++
        [MainTask.onCompleteTask] ∧
    (DecrementWorkCount { initScheduler with work_count := 2 }).main_queue =
      ({ initScheduler with work_count := 2 } : SchedulerState).main_queue := by
  constructor
  · exact (decrementWorkCount_posts_quit_iff_zero
      { initScheduler with work_count := 1 }).1 rfl
  · exact (decrementWorkCount_posts_quit_iff_zero
      { initScheduler with work_count := 2 }).2.1 (by decide)

/-- C7: after any sequence of AddGenDependency calls, GetGenDependencies
returns exactly the files added, in order, appended to whatever was there
before, and leaves the scheduler state (the stored list included)
unchanged. -/
theorem getGenDependencies_returns_added_in_order (s : SchedulerState)
    (files : List FilePath) :
    (GetGenDependencies (files.foldl AddGenDependency s)).1 =
      s.gen_dependencies ++ files ∧
    (GetGenDependencies (files.foldl AddGenDependency s)).2 =
      files.foldl AddGenDependency s :=
  ⟨foldl_addGenDependency files s, rfl⟩

/-- C8: Log only posts a log task, leaving is_failed unchanged, and the
LogOnMainThread task prints the verb and message without touching any
scheduler state. -/
theorem log_never_sets_failure_flag (s : SchedulerState) (verb msg : String) :
    (Log s verb msg).is_failed = s.is_failed ∧
    (Log s verb msg).main_queue = s.main_queue ++ [MainTask.logTask verb msg] ∧
    (runMainTask s (MainTask.logTask verb msg)).1 = s ∧
    (runMainTask s (MainTask.logTask verb msg)).2 =
      [verb, " " ++ msg ++ "\n"] :=
  ⟨rfl, rfl, rfl, rfl⟩

/-- C9: GetUnknownGeneratedInputs returns exactly the stored entries whose
source file is not among the written files (each file passed to
AddWrittenFile is erased from the returned copy), while the stored multimap
and written-files list are untouched; AddWrittenFile itself appends. -/
theorem getUnknownGeneratedInputs_filters_written (s : SchedulerState)
    (files : List SourceFile) :
    (GetUnknownGeneratedInputs s).1 =
      s.unknown_generated_inputs.filter
        (fun p => !(s.written_files.contains p.1)) ∧
    (GetUnknownGeneratedInputs s).2 = s ∧
    (files.foldl AddWrittenFile s).written_files =
      s.written_files ++ files ∧
    (files.foldl AddWrittenFile s).unknown_generated_inputs =
      s.unknown_generated_inputs := by
  refine ⟨foldl_mmapErase s.written_files s.unknown_generated_inputs, rfl,
    foldl_addWrittenFile files s, ?_⟩
  induction files generalizing s with
  | nil => rfl
  | cons f rest ih =>
    rw [List.foldl_cons, ih]
    rfl

/-! ### Termination of the pool event model (C3) and lock discipline (C5) -/

theorem scheduleWork_counts (s : SchedulerState) :
    (ScheduleWork s).work_count = s.work_count + 1 ∧
    (ScheduleWork s).pool_work_count = s.pool_work_count + 1 ∧
    (ScheduleWork s).main_queue = s.main_queue :=
  ⟨rfl, rfl, rfl⟩

theorem workerTaskBody_counts (s : SchedulerState) :
    (workerTaskBody s).work_count = s.work_count - 1 ∧
    (workerTaskBody s).pool_work_count = s.pool_work_count - 1 := by
  by_cases hz : s.work_count - 1 = 0 <;>
    simp [workerTaskBody, DecrementWorkCount, hz]

theorem stepPool_queue_mono (s : SchedulerState) (ev : PoolEvent)
    (tk : MainTask) (h : tk ∈ s.main_queue) :
    tk ∈ (stepPool s ev).main_queue := by
  cases ev with
  | schedule => exact h
  | complete =>
    by_cases hz : s.work_count - 1 = 0 <;>
      simp [stepPool, workerTaskBody, DecrementWorkCount, hz, h]

theorem runPool_queue_mono (t : List PoolEvent) :
    ∀ (s : SchedulerState) (tk : MainTask), tk ∈ s.main_queue →
      tk ∈ (runPool s t).main_queue := by
  induction t with
  | nil => intro s tk h; exact h
  | cons ev rest ih =>
    intro s tk h
    exact ih (stepPool s ev) tk (stepPool_queue_mono s ev tk h)

theorem runPool_balanced (t : List PoolEvent) :
    ∀ (s : SchedulerState) (k : Int), 0 ≤ k →
      s.work_count = k → s.pool_work_count = k →
      balancedFrom k t = true →
      (runPool s t).work_count = 0 ∧
      (runPool s t).pool_work_count = 0 ∧
      ((0 < k ∨ t ≠ []) →
        MainTask.onCompleteTask ∈ (runPool s t).main_queue) := by
  induction t with
  | nil =>
    intro s k _ hw hp hb
    have hk0 : k = 0 := by simpa [balancedFrom] using hb
    refine ⟨by simpa [runPool, hk0] using hw, by simpa [runPool, hk0] using hp, ?_⟩
    rintro (h | h)
    · omega
    · exact absurd rfl h
  | cons ev rest ih =>
    intro s k hk hw hp hb
    cases ev with
    | schedule =>
      have hb2 : balancedFrom (k + 1) rest = true := by
        simpa [balancedFrom] using hb
      have hs : (ScheduleWork s).work_count = k + 1 := by
        simp [ScheduleWork, IncrementWorkCount, hw]
      have hps : (ScheduleWork s).pool_work_count = k + 1 := by
        simp [ScheduleWork, IncrementWorkCount, hp]
      have h := ih (ScheduleWork s) (k + 1) (by omega) hs hps hb2
      exact ⟨h.1, h.2.1, fun _ => h.2.2 (Or.inl (by omega))⟩
    | complete =>
      have hb0 : 0 < k := by
        by_contra hneg
        simp [balancedFrom, hneg] at hb
      have hb2 : balancedFrom (k - 1) rest = true := by
        simpa [balancedFrom, hb0] using hb
      have hwc : (workerTaskBody s).work_count = k - 1 := by
        rw [(workerTaskBody_counts s).1, hw]
      have hpc : (workerTaskBody s).pool_work_count = k - 1 := by
        rw [(workerTaskBody_counts s).2, hp]
      have h := ih (workerTaskBody s) (k - 1) (by omega) hwc hpc hb2
      refine ⟨h.1, h.2.1, fun _ => ?_⟩
      by_cases hone : k = 1
      · have hq : MainTask.onCompleteTask ∈ (workerTaskBody s).main_queue := by
          simp [workerTaskBody, DecrementWorkCount, hw, hone]
        exact runPool_queue_mono rest (workerTaskBody s) _ hq
      · exact h.2.2 (Or.inl (by omega))

theorem waits_replicate (g : LockId) (k : Nat) :
    waitsGuardedOnlyBy g [g]
      (List.replicate k (LockAct.cvWait g) ++ [LockAct.release g]) = true := by
  induction k with
  | zero => simp [waitsGuardedOnlyBy]
  | succ n ih => simp [List.replicate_succ, waitsGuardedOnlyBy, ih]

/-! ### Claim theorems for C3 and C5 -/

/-- C3: in any trace where every scheduled worker task eventually
completes, starting from a quiescent scheduler: ScheduleWork increments
both counters and each worker-task completion decrements both; the final
work count and pool work count are zero; the decrement that reached zero
posted OnComplete (so the task is in the main queue, and running it posts
quit); and WaitForPoolTasks returns since the pool work count is zero — so
Run returns. -/
theorem scheduler_run_terminates (s : SchedulerState) (t : List PoolEvent)
    (hw : s.work_count = 0) (hp : s.pool_work_count = 0)
    (hbal : balancedFrom 0 t = true) (hne : t ≠ []) :
    (∀ u : SchedulerState, (ScheduleWork u).work_count = u.work_count + 1 ∧
      (ScheduleWork u).pool_work_count = u.pool_work_count + 1) ∧
    (∀ u : SchedulerState, (workerTaskBody u).work_count = u.work_count - 1 ∧
      (workerTaskBody u).pool_work_count = u.pool_work_count - 1) ∧
    (∀ u : SchedulerState, (OnComplete u).main_queue =
      u.main_queue ++ [MainTask.quitTask]) ∧
    (runPool s t).work_count = 0 ∧
    (runPool s t).pool_work_count = 0 ∧
    MainTask.onCompleteTask ∈ (runPool s t).main_queue ∧
    WaitForPoolTasksReturns (runPool s t) = true := by
  have h := runPool_balanced t s 0 le_rfl hw hp hbal
  refine ⟨fun u => ⟨rfl, (scheduleWork_counts u).2.1⟩,
    fun u => workerTaskBody_counts u, fun u => rfl,
    h.1, h.2.1, h.2.2 (Or.inr hne), ?_⟩
  simp [WaitForPoolTasksReturns, h.2.1]

/-- C3 witness: a concrete one-schedule one-completion trace from the fresh
scheduler reaches the quiescent, quit-posted state. -/
theorem scheduler_run_terminates_witness :
    (runPool initScheduler [PoolEvent.schedule, PoolEvent.complete]
      ).work_count = 0 ∧
    MainTask.onCompleteTask ∈
      (runPool initScheduler [PoolEvent.schedule, PoolEvent.complete]
        ).main_queue ∧
    WaitForPoolTasksReturns
      (runPool initScheduler [PoolEvent.schedule, PoolEvent.complete]) =
      true := by
  have h := scheduler_run_terminates initScheduler
    [PoolEvent.schedule, PoolEvent.complete] rfl rfl (by decide) (by decide)
  exact ⟨h.2.2.2.1, h.2.2.2.2.2.1, h.2.2.2.2.2.2⟩

/-- C5: in the lock traces of Run and of the destructor, every
condition-variable wait is on the cv guarded by pool_work_count_lock_ and
happens while exactly that mutex — not lock_ nor any other lock — is held;
the two mutexes are distinct. -/
theorem poolWait_holds_only_dedicated_lock (k : Nat) :
    waitsGuardedOnlyBy LockId.poolWorkCountLock [] (runActs k) = true ∧
    waitsGuardedOnlyBy LockId.poolWorkCountLock [] (dtorActs k) = true ∧
    LockId.poolWorkCountLock ≠ LockId.mainLock := by
  refine ⟨?_, ?_, by decide⟩
  · show waitsGuardedOnlyBy LockId.poolWorkCountLock [] (runActs k) = true
    simp only [runActs, waitForPoolTasksActs, List.cons_append,
      List.nil_append, waitsGuardedOnlyBy, List.erase_cons_head]
    exact waits_replicate LockId.poolWorkCountLock k
  · show waitsGuardedOnlyBy LockId.poolWorkCountLock [] (dtorActs k) = true
    simp only [dtorActs, waitForPoolTasksActs, waitsGuardedOnlyBy]
    exact waits_replicate LockId.poolWorkCountLock k

/-! ### Scope usage tracking (C6)

The Scope class and the template built-in are not part of this source
slice; only their test (FunctionTemplate.MarkUsed) is. The following
definitions are therefore modelled from the spec. -/

/-- A source location, as recorded per declaration. -/
abbrev Location := Nat

/-- Modelled from the spec: a scope entry is a value slot with a usage flag
and the declaration location ("a mapping from identifier to (Value,
usage-flag, declaration-location)"); the value itself is irrelevant to
usage checking and omitted. -/
structure ScopeVar where
  used : Bool
  decl_loc : Location
deriving Repr, DecidableEq

/-- Modelled from the spec: a lexical scope, reduced to its identifier
map. -/
structure Scope where
  vars : List (String × ScopeVar)
deriving Repr, DecidableEq

def emptyScope : Scope := ⟨[]⟩

def lookupVar : List (String × ScopeVar) → String → Option ScopeVar
  | [], _ => none
  | (n, v) :: rest, x => if n = x then some v else lookupVar rest x

def setVarList : List (String × ScopeVar) → String → ScopeVar →
    List (String × ScopeVar)
  | [], n, v => [(n, v)]
  | (m, w) :: rest, n, v =>
      if m = n then (n, v) :: rest else (m, w) :: setVarList rest n v

/-- Modelled from the spec: Scope::SetValue — (re)declare an identifier,
its usage flag cleared, recording the declaration location. -/
def Scope.set (s : Scope) (name : String) (loc : Location) : Scope :=
  ⟨setVarList s.vars name ⟨false, loc⟩⟩

/-- Modelled from the spec: Scope::MarkUsed — flag the identifier as read;
identifiers not in the scope are untouched. -/
def Scope.markUsed (s : Scope) (name : String) : Scope :=
  ⟨s.vars.map (fun p =>
    if p.1 = name then (p.1, { p.2 with used := true }) else p)⟩

/-- The statements relevant to usage tracking, as in the
FunctionTemplate.MarkUsed test program. -/
inductive Stmt where
  | assign (name : String) (loc : Location)
  | printRef (name : String)
  | templateDef (tname : String) (body_refs : List String)
deriving Repr, DecidableEq

/-- Modelled from the spec: executing a statement against a scope. An
assignment declares; an expression reference reads; defining a template
whose body references identifiers of the enclosing scope counts as a read
of each of them ("a reference in an expression, export out of a template,
or explicit mark_used"), which is what the MarkUsed test checks. -/
def execStmt (s : Scope) : Stmt → Scope
  | Stmt.assign n loc => s.set n loc
  | Stmt.printRef n => s.markUsed n
  | Stmt.templateDef _ refs => refs.foldl Scope.markUsed s

def execProg (s : Scope) (p : List Stmt) : Scope :=
  p.foldl execStmt s

/-- Modelled from the spec: Scope::CheckForUnusedVars — report one error
per never-read identifier, carrying its declaration location. -/
def CheckForUnusedVars (s : Scope) : List (String × Location) :=
  s.vars.filterMap (fun p =>
    if p.2.used then none else some (p.1, p.2.decl_loc))

/-- Whether the program declares x. -/
def declaresVar (p : List Stmt) (x : String) : Bool :=
  p.any fun st =>
    match st with
    | Stmt.assign n _ => n == x
    | _ => false

/-- Whether the program reads x: by expression reference, or by reference
inside the body of a template it defines. -/
def readsVar (p : List Stmt) (x : String) : Bool :=
  p.any fun st =>
    match st with
    | Stmt.printRef n => n == x
    | Stmt.templateDef _ refs => refs.contains x
    | _ => false

/-- The program of the FunctionTemplate.MarkUsed test:
a = 1; template("templ") { print(a) }. -/
def markUsedTestProg : List Stmt :=
  [Stmt.assign "a" 1, Stmt.templateDef "templ" ["a"]]

/-! ### Lemmas about scope usage tracking -/

theorem lookupVar_setVarList_self (l : List (String × ScopeVar))
    (n : String) (v : ScopeVar) :
    lookupVar (setVarList l n v) n = some v := by
  induction l with
  | nil => simp [setVarList, lookupVar]
  | cons hd rest ih =>
    by_cases h : hd.1 = n <;> simp [setVarList, lookupVar, h, ih]

theorem lookupVar_setVarList_ne (l : List (String × ScopeVar))
    (n x : String) (v : ScopeVar) (hne : n ≠ x) :
    lookupVar (setVarList l n v) x = lookupVar l x := by
  induction l with
  | nil => simp [setVarList, lookupVar, hne]
  | cons hd rest ih =>
    by_cases h : hd.1 = n
    · simp [setVarList, lookupVar, h, hne]
    · simp [setVarList, lookupVar, h, ih]

theorem lookupVar_markUsed_ne (s : Scope) (n x : String) (hne : n ≠ x) :
    lookupVar (s.markUsed n).vars x = lookupVar s.vars x := by
  obtain ⟨l⟩ := s
  show lookupVar (l.map fun p =>
      if p.1 = n then (p.1, { p.2 with used := true }) else p) x
    = lookupVar l x
  induction l with
  | nil => rfl
  | cons hd rest ih =>
    obtain ⟨m, v⟩ := hd
    rw [List.map_cons]
    by_cases h : m = n
    · have hx : m ≠ x := fun hh => hne (h ▸ hh)
      show lookupVar
          ((if m = n then (m, { v with used := true }) else (m, v)) ::
            (rest.map fun p =>
              if p.1 = n then (p.1, { p.2 with used := true }) else p)) x
        = lookupVar ((m, v) :: rest) x
      rw [if_pos h]
      show (if m = x then some ({ v with used := true } : ScopeVar)
            else lookupVar (rest.map fun p =>
              if p.1 = n then (p.1, { p.2 with used := true }) else p) x)
          = (if m = x then some v else lookupVar rest x)
      rw [if_neg hx, if_neg hx]
      exact ih
    · show lookupVar
          ((if m = n then (m, { v with used := true }) else (m, v)) ::
            (rest.map fun p =>
              if p.1 = n then (p.1, { p.2 with used := true }) else p)) x
        = lookupVar ((m, v) :: rest) x
      rw [if_neg h]
      show (if m = x then some v
            else lookupVar (rest.map fun p =>
              if p.1 = n then (p.1, { p.2 with used := true }) else p) x)
          = (if m = x then some v else lookupVar rest x)
      by_cases hx : m = x
      · rw [if_pos hx, if_pos hx]
      · rw [if_neg hx, if_neg hx]
        exact ih


theorem lookupVar_foldl_markUsed (refs : List String) (x : String) :
    ∀ s : Scope, refs.contains x = false →
      lookupVar (refs.foldl Scope.markUsed s).vars x = lookupVar s.vars x := by
  induction refs with
  | nil => intro s _; rfl
  | cons r rest ih =>
    intro s hmem
    have hco : ((x == r) || rest.contains x) = false := by
      rw [← List.contains_cons]
      exact hmem
    rw [Bool.or_eq_false_iff] at hco
    have hr : r ≠ x := fun h => ne_of_beq_false hco.1 h.symm
    rw [List.foldl_cons, ih (s.markUsed r) hco.2,
      lookupVar_markUsed_ne s r x hr]

theorem exec_preserves_unused (p : List Stmt) (x : String)
    (hnr : readsVar p x = false) :
    ∀ s : Scope,
      (declaresVar p x = true →
        ∃ l, lookupVar (execProg s p).vars x = some ⟨false, l⟩) ∧
      (declaresVar p x = false →
        lookupVar (execProg s p).vars x = lookupVar s.vars x) := by
  induction p with
  | nil =>
    intro s
    exact ⟨fun h => by simp [declaresVar] at h, fun _ => rfl⟩
  | cons st rest ih =>
    intro s
    cases st with
    | assign n loc =>
      have hnr1 : readsVar rest x = false := by
        have hor : ((false : Bool) || readsVar rest x) = false := hnr
        rwa [Bool.false_or] at hor
      by_cases hn : n = x
      · constructor
        · intro _
          by_cases hdr : declaresVar rest x = true
          · exact (ih hnr1 (s.set n loc)).1 hdr
          · have hfr : declaresVar rest x = false := by
              cases hdv : declaresVar rest x
              · rfl
              · exact absurd hdv hdr
            have h2 := (ih hnr1 (s.set n loc)).2 hfr
            refine ⟨loc, ?_⟩
            show lookupVar (execProg (s.set n loc) rest).vars x = _
            rw [h2, hn]
            exact lookupVar_setVarList_self s.vars x ⟨false, loc⟩
        · intro hdl
          have hb : ((n == x) || declaresVar rest x) = false := hdl
          rw [Bool.or_eq_false_iff] at hb
          rw [hn] at hb
          simp at hb
      · have hbeq : (n == x) = false := beq_eq_false_iff_ne.mpr hn
        have hdecl_eq : declaresVar (Stmt.assign n loc :: rest) x =
            declaresVar rest x := by
          show ((n == x) || declaresVar rest x) = declaresVar rest x
          rw [hbeq, Bool.false_or]
        have hpres : lookupVar (s.set n loc).vars x = lookupVar s.vars x :=
          lookupVar_setVarList_ne s.vars n x ⟨false, loc⟩ hn
        constructor
        · intro hdl
          rw [hdecl_eq] at hdl
          exact (ih hnr1 (s.set n loc)).1 hdl
        · intro hdl
          rw [hdecl_eq] at hdl
          have h2 := (ih hnr1 (s.set n loc)).2 hdl
          exact h2.trans hpres
    | printRef n =>
      have hor : ((n == x) || readsVar rest x) = false := hnr
      rw [Bool.or_eq_false_iff] at hor
      have hnr1 : readsVar rest x = false := hor.2
      have hb : (n == x) = false := hor.1
      have hne2 : n ≠ x := ne_of_beq_false hb
      have hdecl_eq : declaresVar (Stmt.printRef n :: rest) x =
          declaresVar rest x := Bool.false_or (declaresVar rest x)
      have hpres : lookupVar (s.markUsed n).vars x = lookupVar s.vars x :=
        lookupVar_markUsed_ne s n x hne2
      constructor
      · intro hdl
        rw [hdecl_eq] at hdl
        exact (ih hnr1 (s.markUsed n)).1 hdl
      · intro hdl
        rw [hdecl_eq] at hdl
        exact ((ih hnr1 (s.markUsed n)).2 hdl).trans hpres
    | templateDef tname refs =>
      have hor : (refs.contains x || readsVar rest x) = false := hnr
      rw [Bool.or_eq_false_iff] at hor
      have hnr1 : readsVar rest x = false := hor.2
      have hb : refs.contains x = false := hor.1
      have hdecl_eq : declaresVar (Stmt.templateDef tname refs :: rest) x =
          declaresVar rest x := Bool.false_or (declaresVar rest x)
      have hpres := lookupVar_foldl_markUsed refs x s hb
      constructor
      · intro hdl
        rw [hdecl_eq] at hdl
        exact (ih hnr1 (refs.foldl Scope.markUsed s)).1 hdl
      · intro hdl
        rw [hdecl_eq] at hdl
        exact ((ih hnr1 (refs.foldl Scope.markUsed s)).2 hdl).trans hpres

theorem lookupVar_mem (l : List (String × ScopeVar)) (x : String)
    (v : ScopeVar) (h : lookupVar l x = some v) : (x, v) ∈ l := by
  induction l with
  | nil => simp [lookupVar] at h
  | cons hd rest ih =>
    obtain ⟨m, w⟩ := hd
    by_cases hx : m = x
    · have h2 : (if m = x then some w else lookupVar rest x) = some v := h
      rw [if_pos hx] at h2
      have hw := Option.some.inj h2
      subst hw
      subst hx
      exact List.mem_cons_self _ _
    · have h2 : (if m = x then some w else lookupVar rest x) = some v := h
      rw [if_neg hx] at h2
      exact List.mem_cons_of_mem _ (ih h2)

theorem unused_mem_check (s : Scope) (x : String) (l : Location)
    (h : lookupVar s.vars x = some ⟨false, l⟩) :
    (x, l) ∈ CheckForUnusedVars s :=
  List.mem_filterMap.mpr
    ⟨(x, ⟨false, l⟩), lookupVar_mem s.vars x ⟨false, l⟩ h, rfl⟩

/-! ### Claim theorem for C6 -/

/-- C6: if the program declares x and never reads it (neither by an
expression reference nor from inside a template body), CheckForUnusedVars
on the resulting scope reports an error carrying x and its recorded
declaration location; conversely, on the FunctionTemplate.MarkUsed test
program — a = 1 followed by template("templ") { print(a) } — it reports no
error, because the reference inside the template body counts as a read. -/
theorem checkForUnusedVars_sound_and_template_reads (p : List Stmt)
    (x : String) (hdecl : declaresVar p x = true)
    (hnr : readsVar p x = false) :
    (∃ l, lookupVar (execProg emptyScope p).vars x = some ⟨false, l⟩ ∧
      (x, l) ∈ CheckForUnusedVars (execProg emptyScope p)) ∧
    CheckForUnusedVars (execProg emptyScope markUsedTestProg) = [] := by
  constructor
  · obtain ⟨l, hl⟩ := ((exec_preserves_unused p x hnr) emptyScope).1 hdecl
    exact ⟨l, hl, unused_mem_check _ x l hl⟩
  · decide

/-- C6 witness: the program b = 2 with no read of b triggers the unused
report, at concrete inputs. -/
theorem checkForUnusedVars_sound_witness :
    (∃ l, lookupVar (execProg emptyScope [Stmt.assign "b" 7]).vars "b" =
        some ⟨false, l⟩ ∧
      ("b", l) ∈ CheckForUnusedVars
        (execProg emptyScope [Stmt.assign "b" 7])) ∧
    CheckForUnusedVars (execProg emptyScope markUsedTestProg) = [] :=
  checkForUnusedVars_sound_and_template_reads [Stmt.assign "b" 7] "b"
    (by decide) (by decide)

/-! ### Atomic file writing (C10)

Shallow embedding of ImportantFileWriter::WriteFileAtomically
(base/files/important_file_writer.cc:77). The file primitives it calls
(CreateTemporaryFileInDir, File, ReplaceFile, DeleteFile) live outside
this slice; their success or failure is an input environment, their effect
on the file system is explicit. -/

/-- A file path as its components; the last component is the basename. -/
abbrev Path := List String

/-- File contents, as the character buffer. -/
abbrev FileData := List Char

/-- base::FilePath::DirName: drop the basename. -/
def dirName (p : Path) : Path := p.dropLast

/-- The file system: contents keyed by path. -/
structure FileSys where
  files : List (Path × FileData)
deriving Repr, DecidableEq

def fsRead : List (Path × FileData) → Path → Option FileData
  | [], _ => none
  | (q, c) :: rest, p => if q = p then some c else fsRead rest p

def fsWriteList : List (Path × FileData) → Path → FileData →
    List (Path × FileData)
  | [], p, c => [(p, c)]
  | (q, d) :: rest, p, c =>
      if q = p then (p, c) :: rest else (q, d) :: fsWriteList rest p c

def FileSys.read (fs : FileSys) (p : Path) : Option FileData :=
  fsRead fs.files p

def FileSys.write (fs : FileSys) (p : Path) (c : FileData) : FileSys :=
  ⟨fsWriteList fs.files p c⟩

def FileSys.del (fs : FileSys) (p : Path) : FileSys :=
  ⟨fs.files.filter (fun e => e.1 != p)⟩

/-- base::ReplaceFile: move the from-file over the to-file in one step. -/
def replaceFile (fs : FileSys) (fromPath toPath : Path) : FileSys :=
  match fs.read fromPath with
  | some c => (fs.del fromPath).write toPath c
  | none => fs

/-- Outcomes of the fallible primitives WriteFileAtomically calls:
CreateTemporaryFileInDir (the fresh basename, none on failure), the File
open, File::Write (the byte count the OS accepts), File::Flush, and
ReplaceFile. -/
structure WriteEnv where
  temp_name : Option String
  open_ok : Bool
  bytes_written : Nat
  flush_ok : Bool
  replace_ok : Bool
deriving Repr, DecidableEq

/-- ImportantFileWriter::WriteFileAtomically
(base/files/important_file_writer.cc:77): create a temp file in the
destination directory, open it, write the data, flush, close, and rename
it over the destination; each failure branch deletes the temp file and
returns false. -/
def WriteFileAtomically (env : WriteEnv) (fs : FileSys) (path : Path)
    (data : FileData) : Bool × FileSys :=
  match env.temp_name with
  | none => (false, fs)
  | some tname =>
    let tmp_file_path := dirName path ++ [tname]
    let fs1 := fs.write tmp_file_path []
    if !env.open_ok then (false, fs1.del tmp_file_path)
    else
      let data_length := data.length
      let bytes_written := min env.bytes_written data_length
      let fs2 := fs1.write tmp_file_path (data.take bytes_written)
      if bytes_written < data_length then (false, fs2.del tmp_file_path)
      else if !env.flush_ok then (false, fs2.del tmp_file_path)
      else if !env.replace_ok then (false, fs2.del tmp_file_path)
      else (true, replaceFile fs2 tmp_file_path path)

/-! ### Lemmas about the file-system model -/

theorem fsRead_write_self (l : List (Path × FileData)) (p : Path) (c : FileData) :
    fsRead (fsWriteList l p c) p = some c := by
  induction l with
  | nil => simp [fsWriteList, fsRead]
  | cons hd rest ih =>
    obtain ⟨q, d⟩ := hd
    by_cases h : q = p <;> simp [fsWriteList, fsRead, h, ih]

theorem fsRead_write_ne (l : List (Path × FileData)) (p q : Path) (c : FileData)
    (h : p ≠ q) : fsRead (fsWriteList l p c) q = fsRead l q := by
  induction l with
  | nil => simp [fsWriteList, fsRead, h]
  | cons hd rest ih =>
    obtain ⟨r, d⟩ := hd
    by_cases hr : r = p
    · subst hr
      simp [fsWriteList, fsRead, h]
    · by_cases hq : r = q <;>
        simp [fsWriteList, fsRead, hr, hq, ih, Ne.symm h]

theorem fsRead_del_self (l : List (Path × FileData)) (p : Path) :
    fsRead (l.filter (fun e => e.1 != p)) p = none := by
  induction l with
  | nil => rfl
  | cons hd rest ih =>
    obtain ⟨q, d⟩ := hd
    by_cases h : q = p <;> simp [List.filter_cons, fsRead, h, ih]

theorem fsRead_del_ne (l : List (Path × FileData)) (p q : Path) (h : p ≠ q) :
    fsRead (l.filter (fun e => e.1 != p)) q = fsRead l q := by
  induction l with
  | nil => rfl
  | cons hd rest ih =>
    obtain ⟨r, d⟩ := hd
    by_cases hr : r = p
    · subst hr
      have hq : r ≠ q := h
      simp [List.filter_cons, fsRead, hq, ih]
    · by_cases hq : r = q <;>
        simp [List.filter_cons, fsRead, hr, hq, ih, Ne.symm h]

theorem read_write_self (fs : FileSys) (p : Path) (c : FileData) :
    (fs.write p c).read p = some c :=
  fsRead_write_self fs.files p c

theorem read_write_ne (fs : FileSys) (p q : Path) (c : FileData) (h : p ≠ q) :
    (fs.write p c).read q = fs.read q :=
  fsRead_write_ne fs.files p q c h

theorem read_del_self (fs : FileSys) (p : Path) : (fs.del p).read p = none :=
  fsRead_del_self fs.files p

theorem read_del_ne (fs : FileSys) (p q : Path) (h : p ≠ q) :
    (fs.del p).read q = fs.read q :=
  fsRead_del_ne fs.files p q h

theorem read_scrub (fs : FileSys) (tmp path : Path) (a b : FileData)
    (hne : tmp ≠ path) :
    ((((fs.write tmp a).write tmp b).del tmp).read path = fs.read path) ∧
    ((((fs.write tmp a).write tmp b).del tmp).read tmp = none) := by
  constructor
  · rw [read_del_ne _ _ _ hne, read_write_ne _ _ _ _ hne,
      read_write_ne _ _ _ _ hne]
  · exact read_del_self _ _

/-! ### Claim theorem for C10 -/

/-- C10: WriteFileAtomically succeeds exactly when temp-file creation,
open, a full-length write, flush and rename all succeed; the temp file
lives in the destination directory; on success the destination holds the
entire data and the temp file is gone; on every failure branch it returns
false, deletes the temp file, and leaves the destination untouched — it is
never replaced with partial data; when temp-file creation itself fails the
file system is unchanged. -/
theorem writeFileAtomically_atomic (env : WriteEnv) (fs : FileSys)
    (path : Path) (data : FileData) (t : String)
    (htemp : env.temp_name = some t)
    (hne : dirName path ++ [t] ≠ path) :
    ((WriteFileAtomically env fs path data).1 = true ↔
      (env.open_ok = true ∧ data.length ≤ env.bytes_written ∧
        env.flush_ok = true ∧ env.replace_ok = true)) ∧
    dirName (dirName path ++ [t]) = dirName path ∧
    ((WriteFileAtomically env fs path data).1 = true →
      (WriteFileAtomically env fs path data).2.read path = some data) ∧
    ((WriteFileAtomically env fs path data).1 = false →
      (WriteFileAtomically env fs path data).2.read path = fs.read path) ∧
    (WriteFileAtomically env fs path data).2.read (dirName path ++ [t]) =
      none ∧
    (∀ (env2 : WriteEnv) (fs2 : FileSys) (p2 : Path) (d2 : FileData),
      env2.temp_name = none →
        WriteFileAtomically env2 fs2 p2 d2 = (false, fs2)) := by
  obtain ⟨tn, o, bw, fl, rp⟩ := env
  obtain rfl : tn = some t := htemp
  have hdir : dirName (dirName path ++ [t]) = dirName path := by
    simp [dirName]
  have hnone : ∀ (env2 : WriteEnv) (fs2 : FileSys) (p2 : Path)
      (d2 : FileData), env2.temp_name = none →
        WriteFileAtomically env2 fs2 p2 d2 = (false, fs2) := by
    intro env2 fs2 p2 d2 h2
    obtain ⟨tn2, o2, bw2, fl2, rp2⟩ := env2
    obtain rfl : tn2 = (none : Option String) := h2
    rfl
  cases o with
  | false =>
    have hres : WriteFileAtomically ⟨some t, false, bw, fl, rp⟩ fs path data
        = (false, (fs.write (dirName path ++ [t]) []).del
            (dirName path ++ [t])) := rfl
    refine ⟨?_, hdir, ?_, ?_, ?_, hnone⟩
    · rw [hres]
      simp
    · rw [hres]
      intro h
      exact absurd h (by simp)
    · intro _
      rw [hres]
      show ((fs.write (dirName path ++ [t]) []).del
        (dirName path ++ [t])).read path = fs.read path
      rw [read_del_ne _ _ _ hne, read_write_ne _ _ _ _ hne]
    · rw [hres]
      exact read_del_self _ _
  | true =>
    by_cases hlen : data.length ≤ bw
    · have hmin : min bw data.length = data.length := min_eq_right hlen
      have hlt : ¬(min bw data.length < data.length) := by
        rw [hmin]
        exact lt_irrefl _
      have htake : data.take (min bw data.length) = data := by
        rw [hmin]
        exact List.take_length data
      cases fl with
      | false =>
        have hres : WriteFileAtomically ⟨some t, true, bw, false, rp⟩
            fs path data
            = (false, (((fs.write (dirName path ++ [t]) []).write
                (dirName path ++ [t]) (data.take (min bw data.length))).del
                (dirName path ++ [t]))) := by
          show (if min bw data.length < data.length
              then ((false, (((fs.write (dirName path ++ [t]) []).write
                (dirName path ++ [t]) (data.take (min bw data.length))).del
                (dirName path ++ [t]))) : Bool × FileSys)
              else if !false then
                (false, (((fs.write (dirName path ++ [t]) []).write
                  (dirName path ++ [t]) (data.take (min bw data.length))).del
                  (dirName path ++ [t])))
              else if !rp then
                (false, (((fs.write (dirName path ++ [t]) []).write
                  (dirName path ++ [t]) (data.take (min bw data.length))).del
                  (dirName path ++ [t])))
              else (true, replaceFile ((fs.write (dirName path ++ [t])
                []).write (dirName path ++ [t])
                (data.take (min bw data.length))) (dirName path ++ [t]) path))
            = _
          rw [if_neg hlt]
          rfl
        have hcore := read_scrub fs (dirName path ++ [t]) path []
          (data.take (min bw data.length)) hne
        refine ⟨?_, hdir, ?_, ?_, ?_, hnone⟩
        · rw [hres]
          simp
        · rw [hres]
          intro h
          exact absurd h (by simp)
        · intro _
          rw [hres]
          exact hcore.1
        · rw [hres]
          exact hcore.2
      | true =>
        cases rp with
        | false =>
          have hres : WriteFileAtomically ⟨some t, true, bw, true, false⟩
              fs path data
              = (false, (((fs.write (dirName path ++ [t]) []).write
                  (dirName path ++ [t]) (data.take (min bw data.length))).del
                  (dirName path ++ [t]))) := by
            show (if min bw data.length < data.length
                then ((false, (((fs.write (dirName path ++ [t]) []).write
                  (dirName path ++ [t]) (data.take (min bw data.length))).del
                  (dirName path ++ [t]))) : Bool × FileSys)
                else if !true then
                  (false, (((fs.write (dirName path ++ [t]) []).write
                    (dirName path ++ [t])
                    (data.take (min bw data.length))).del
                    (dirName path ++ [t])))
                else if !false then
                  (false, (((fs.write (dirName path ++ [t]) []).write
                    (dirName path ++ [t])
                    (data.take (min bw data.length))).del
                    (dirName path ++ [t])))
                else (true, replaceFile ((fs.write (dirName path ++ [t])
                  []).write (dirName path ++ [t])
                  (data.take (min bw data.length)))
                  (dirName path ++ [t]) path))
              = _
            rw [if_neg hlt]
            rfl
          have hcore := read_scrub fs (dirName path ++ [t]) path []
            (data.take (min bw data.length)) hne
          refine ⟨?_, hdir, ?_, ?_, ?_, hnone⟩
          · rw [hres]
            simp
          · rw [hres]
            intro h
            exact absurd h (by simp)
          · intro _
            rw [hres]
            exact hcore.1
          · rw [hres]
            exact hcore.2
        | true =>
          have hread2 : ((fs.write (dirName path ++ [t]) []).write
              (dirName path ++ [t]) (data.take (min bw data.length))).read
              (dirName path ++ [t]) = some data := by
            rw [read_write_self, htake]
          have hrep : replaceFile ((fs.write (dirName path ++ [t]) []).write
              (dirName path ++ [t]) (data.take (min bw data.length)))
              (dirName path ++ [t]) path
              = ((((fs.write (dirName path ++ [t]) []).write
                  (dirName path ++ [t])
                  (data.take (min bw data.length))).del
                  (dirName path ++ [t])).write path data) := by
            unfold replaceFile
            rw [hread2]
          have hres : WriteFileAtomically ⟨some t, true, bw, true, true⟩
              fs path data
              = (true, ((((fs.write (dirName path ++ [t]) []).write
                  (dirName path ++ [t])
                  (data.take (min bw data.length))).del
                  (dirName path ++ [t])).write path data)) := by
            show (if min bw data.length < data.length
                then ((false, (((fs.write (dirName path ++ [t]) []).write
                  (dirName path ++ [t]) (data.take (min bw data.length))).del
                  (dirName path ++ [t]))) : Bool × FileSys)
                else if !true then
                  (false, (((fs.write (dirName path ++ [t]) []).write
                    (dirName path ++ [t])
                    (data.take (min bw data.length))).del
                    (dirName path ++ [t])))
                else if !true then
                  (false, (((fs.write (dirName path ++ [t]) []).write
                    (dirName path ++ [t])
                    (data.take (min bw data.length))).del
                    (dirName path ++ [t])))
                else (true, replaceFile ((fs.write (dirName path ++ [t])
                  []).write (dirName path ++ [t])
                  (data.take (min bw data.length)))
                  (dirName path ++ [t]) path))
              = _
            rw [if_neg hlt, hrep]
            rfl
          refine ⟨?_, hdir, ?_, ?_, ?_, hnone⟩
          · rw [hres]
            simp [hlen]
          · intro _
            rw [hres]
            exact read_write_self _ _ _
          · rw [hres]
            intro h
            exact absurd h (by simp)
          · rw [hres]
            show (((((fs.write (dirName path ++ [t]) []).write
              (dirName path ++ [t])
              (data.take (min bw data.length))).del
              (dirName path ++ [t])).write path data)).read
              (dirName path ++ [t]) = none
            rw [read_write_ne _ _ _ _ (Ne.symm hne)]
            exact read_del_self _ _
    · have hlt2 : min bw data.length < data.length := by
        have hmle : min bw data.length ≤ bw := Nat.min_le_left _ _
        omega
      have hres : WriteFileAtomically ⟨some t, true, bw, fl, rp⟩ fs path data
          = (false, (((fs.write (dirName path ++ [t]) []).write
              (dirName path ++ [t]) (data.take (min bw data.length))).del
              (dirName path ++ [t]))) := by
        show (if min bw data.length < data.length
            then ((false, (((fs.write (dirName path ++ [t]) []).write
              (dirName path ++ [t]) (data.take (min bw data.length))).del
              (dirName path ++ [t]))) : Bool × FileSys)
            else if !fl then
              (false, (((fs.write (dirName path ++ [t]) []).write
                (dirName path ++ [t]) (data.take (min bw data.length))).del
                (dirName path ++ [t])))
            else if !rp then
              (false, (((fs.write (dirName path ++ [t]) []).write
                (dirName path ++ [t]) (data.take (min bw data.length))).del
                (dirName path ++ [t])))
            else (true, replaceFile ((fs.write (dirName path ++ [t])
              []).write (dirName path ++ [t])
              (data.take (min bw data.length))) (dirName path ++ [t]) path))
          = _
        rw [if_pos hlt2]
      have hcore := read_scrub fs (dirName path ++ [t]) path []
        (data.take (min bw data.length)) hne
      refine ⟨?_, hdir, ?_, ?_, ?_, hnone⟩
      · rw [hres]
        simp [hlen]
      · rw [hres]
        intro h
        exact absurd h (by simp)
      · intro _
        rw [hres]
        exact hcore.1
      · rw [hres]
        exact hcore.2

/-- C10 witness: a concrete successful atomic write lands the full data at
the destination. -/
theorem writeFileAtomically_atomic_witness :
    (WriteFileAtomically ⟨some "t0", true, 5, true, true⟩ ⟨[]⟩
      ["d", "f"] ['h', 'i']).2.read ["d", "f"] = some ['h', 'i'] := by
  have h := writeFileAtomically_atomic ⟨some "t0", true, 5, true, true⟩ ⟨[]⟩
    ["d", "f"] ['h', 'i'] "t0" rfl (by decide)
  exact h.2.2.1 (by decide)

end GN
